import Mathlib

/-!
Verification of the SourceTrader signal lifecycle and PnL/statistics engine
(src/main.py), as a shallow embedding.

Modelling conventions:
- Machine floats (Python float, Postgres DOUBLE PRECISION) are modelled as
  exact rationals; prices in the scenarios of interest are exact.
- The signals table is a list of rows in insertion order, with the SERIAL
  id counter carried alongside (Store.nextId); SQL queries are translated
  to list operations with the same ordering/limit semantics.
- Network sends (Telegram sendMessage) are modelled by a success oracle
  attempt : Nat -> Bool; a try/except-pass around a send is an attempt
  that simply reports failure without affecting anything else.
- Timestamps are abstract Nat instants; the Tehran wall-clock used by the
  cron endpoint is passed in as (hour, minute, dateStr), which is what
  the code derives from the clock before any decision is taken.
-/

namespace SourceTrader

/-- Python str.upper, for the ASCII side strings this service handles:
uppercase every character of the string. -/
def pyUpper (s : String) : String := String.mk (s.data.map Char.toUpper)

/-- One row of the signals table (init_db/migrate_db): id SERIAL, symbol,
side, price, time, created_at, ref_open_id (nullable). pnl_pct/closed_at
columns are added by migrate_db but never written by this code version, so
they are omitted. -/
structure Signal where
  id : Nat
  symbol : String
  side : String
  price : ℚ
  time : String
  createdAt : Nat
  refOpenId : Option Nat
deriving DecidableEq, Repr

/-- The signals table plus the next SERIAL id. -/
structure Store where
  signals : List Signal
  nextId : Nat
deriving DecidableEq, Repr

/-- save_signal: INSERT INTO signals(symbol, side, price, time, created_at)
RETURNING id. The row gets the next SERIAL id; ref_open_id starts NULL. -/
def save_signal (st : Store) (symbol side : String) (price : ℚ) (t : String)
    (nowT : Nat) : Nat × Store :=
  let sid := st.nextId
  (sid,
   { signals := st.signals ++
       [{ id := sid, symbol := symbol, side := side, price := price,
          time := t, createdAt := nowT, refOpenId := none }],
     nextId := st.nextId + 1 })

/-- update_signal_ref: UPDATE signals SET ref_open_id=ref WHERE id=sid,
guarded by Python truthiness (None and 0 are both no-ops). -/
def update_signal_ref (st : Store) (sid : Nat) (ref : Option Nat) : Store :=
  match ref with
  | none => st
  | some r =>
    if r = 0 then st
    else { st with
           signals := st.signals.map
             (fun s => if s.id = sid then { s with refOpenId := some r } else s) }

/-- Row with the maximum id in a list (SELECT ... ORDER BY id DESC LIMIT 1). -/
def argmaxId : List Signal → Option Signal
  | [] => none
  | g :: rest =>
    match argmaxId rest with
    | none => some g
    | some a => if a.id < g.id then some g else some a

/-- find_ref_open_id: map CLOSE_LONG to LONG and CLOSE_SHORT to SHORT, then
SELECT id FROM signals WHERE symbol= AND side= ORDER BY id DESC LIMIT 1. -/
def find_ref_open_id (st : Store) (symbol closeSide : String) : Option Nat :=
  let s := pyUpper closeSide
  let openSide : Option String :=
    if s = "CLOSE_LONG" then some "LONG"
    else if s = "CLOSE_SHORT" then some "SHORT"
    else none
  match openSide with
  | none => none
  | some os =>
    (argmaxId (st.signals.filter (fun g => g.symbol = symbol ∧ g.side = os))).map
      (fun g => g.id)

/-- SELECT ... FROM signals WHERE id=i, as used inside build_daily_summary;
op[0] is the first returned row. -/
def lookupSignal (sigs : List Signal) (i : Nat) : Option Signal :=
  (sigs.filter (fun s => s.id = i)).head?

/-- The body of the loop in build_daily_summary that turns one close row
into its referenced open and its fractional PnL, or skips it: a close is
skipped when its ref_open_id has no row, when the open price is not
positive, or when the (close side, open side) pair is not
(CLOSE_LONG, LONG) or (CLOSE_SHORT, SHORT). -/
def resolveClose (sigs : List Signal) (c : Signal) : Option (Signal × ℚ) :=
  match c.refOpenId with
  | none => none
  | some r =>
    match lookupSignal sigs r with
    | none => none
    | some o =>
      if o.price ≤ 0 then none
      else if pyUpper c.side = "CLOSE_LONG" ∧ pyUpper o.side = "LONG" then
        some (o, (c.price - o.price) / o.price)
      else if pyUpper c.side = "CLOSE_SHORT" ∧ pyUpper o.side = "SHORT" then
        some (o, (o.price - c.price) / o.price)
      else none

/-- The pct helper of build_daily_summary renders a fractional PnL x as the
percentage x * 100 (formatted with two decimals and a percent sign). -/
def pctDisplay (x : ℚ) : ℚ := x * 100

/-- The best_sig record tracked by build_daily_summary. -/
structure BestSig where
  symbol : String
  pnl : ℚ
  openId : Nat
  closeId : Nat
deriving DecidableEq, Repr

/-- Accumulator of the loop in build_daily_summary. -/
structure SummaryAcc where
  wins : Nat
  losses : Nat
  totalPnl : ℚ
  best : Option BestSig
deriving DecidableEq, Repr

/-- Initial accumulator: wins = losses = 0, total_pnl = 0.0, best = None. -/
def initAcc : SummaryAcc := { wins := 0, losses := 0, totalPnl := 0, best := none }

/-- best_pnl/best_sig update: replace when best is None or pnl > best_pnl. -/
def updateBest (old : Option BestSig) (o c : Signal) (pnl : ℚ) : Option BestSig :=
  match old with
  | none => some { symbol := o.symbol, pnl := pnl, openId := o.id, closeId := c.id }
  | some b =>
    if b.pnl < pnl then some { symbol := o.symbol, pnl := pnl, openId := o.id, closeId := c.id }
    else some b

/-- One iteration of the close loop of build_daily_summary: skipped closes
leave the accumulator unchanged; a resolved close adds its pnl to
total_pnl, increments wins when pnl > 0, increments losses when pnl < 0
(a pnl of exactly 0 increments neither), and updates the best signal. -/
def closeStep (sigs : List Signal) (acc : SummaryAcc) (c : Signal) : SummaryAcc :=
  match resolveClose sigs c with
  | none => acc
  | some (o, pnl) =>
    { wins := if 0 < pnl then acc.wins + 1 else acc.wins
      losses := if 0 < pnl then acc.losses else if pnl < 0 then acc.losses + 1 else acc.losses
      totalPnl := acc.totalPnl + pnl
      best := updateBest acc.best o c pnl }

/-- The whole close loop of build_daily_summary. -/
def summaryAccOf (sigs : List Signal) (closes : List Signal) : SummaryAcc :=
  closes.foldl (closeStep sigs) initAcc

/-- The opens query of build_daily_summary: rows created in the window with
side LONG or SHORT, in id order. -/
def windowOpens (st : Store) (startT endT : Nat) : List Signal :=
  st.signals.filter
    (fun s => startT ≤ s.createdAt ∧ s.createdAt < endT ∧
      (s.side = "LONG" ∨ s.side = "SHORT"))

/-- The closes query of build_daily_summary: rows created in the window with
side CLOSE_LONG or CLOSE_SHORT and ref_open_id NOT NULL, in id order. -/
def windowCloses (st : Store) (startT endT : Nat) : List Signal :=
  st.signals.filter
    (fun s => startT ≤ s.createdAt ∧ s.createdAt < endT ∧
      (s.side = "CLOSE_LONG" ∨ s.side = "CLOSE_SHORT") ∧ s.refOpenId ≠ none)

/-- The numbers build_daily_summary computes and then renders into the
Persian digest text: the count of opens, total_trades = wins + losses, the
win/loss counters, winrate (None when no trades, rendered N/A), the best
signal, and total_pnl. -/
structure DailySummary where
  opensCount : Nat
  totalTrades : Nat
  wins : Nat
  losses : Nat
  winrate : Option ℚ
  best : Option BestSig
  totalPnl : ℚ
deriving DecidableEq, Repr

/-- build_daily_summary: the full computation over the signals table for a
created_at window [startT, endT). -/
def build_daily_summary (st : Store) (startT endT : Nat) : DailySummary :=
  let opens := windowOpens st startT endT
  let closes := windowCloses st startT endT
  let acc := summaryAccOf st.signals closes
  let totalTrades := acc.wins + acc.losses
  { opensCount := opens.length
    totalTrades := totalTrades
    wins := acc.wins
    losses := acc.losses
    winrate := if 0 < totalTrades then some ((acc.wins : ℚ) / (totalTrades : ℚ) * 100) else none
    best := acc.best
    totalPnl := acc.totalPnl }

/-- The fractional PnL values of the closes the summary loop actually
counts (those resolveClose accepts), in loop order. -/
def countedPnls (sigs : List Signal) (closes : List Signal) : List ℚ :=
  closes.filterMap (fun c => (resolveClose sigs c).map (fun p => p.2))

/-- Sum of a list of rationals. -/
def sumQ (l : List ℚ) : ℚ := l.foldl (fun a b => a + b) 0

/-- Modelled from the spec (for comparison only, not from src/main.py):
sum_positive_pct is the sum of only the positive pnl values among the
counted closes. -/
def sumPositiveSpec (sigs : List Signal) (closes : List Signal) : ℚ :=
  sumQ ((countedPnls sigs closes).filter (fun p => 0 < p))

/-- The TradingView webhook payload (class TVPayload); price is required
here because the signals.price column is NOT NULL. -/
structure TVPayload where
  strategy : Option String
  symbol : Option String
  side : Option String
  price : ℚ
  time : Option String
  secret : String
deriving DecidableEq, Repr

/-- Outcome of POST /tv: HTTP 401 on a bad secret, otherwise
ok with the new signal id and delivered_to = len(users). -/
inductive TVResult where
  | unauthorized
  | ok (id : Nat) (deliveredTo : Nat)
deriving DecidableEq, Repr

/-- The per-recipient send loop shared by tv_hook and cron: each send is
tried, a failed send is swallowed by except-pass, and the loop moves on to
the next recipient. Returns the recipients actually delivered to. -/
def fanout (attempt : Nat → Bool) : List Nat → List Nat
  | [] => []
  | u :: rest =>
    if attempt u then u :: fanout attempt rest else fanout attempt rest

/-- tv_hook: reject on a bad secret; otherwise save the signal (symbol
defaults to UNKNOWN, side to N/A, both as sent except the side is
upper-cased), then for a close look up and persist the reference to the
latest matching open, then fan the message out to the active users.
Returns (response, new store, delivered recipients). -/
def tv_hook (webhookSecret : String) (p : TVPayload) (st : Store) (nowT : Nat)
    (users : List Nat) (attempt : Nat → Bool) : TVResult × Store × List Nat :=
  if p.secret ≠ webhookSecret then (TVResult.unauthorized, st, [])
  else
    let symbol := p.symbol.getD "UNKNOWN"
    let side := pyUpper (p.side.getD "N/A")
    let saved := save_signal st symbol side p.price (p.time.getD "") nowT
    let sid := saved.1
    let st1 := saved.2
    let st2 :=
      if side = "CLOSE_LONG" ∨ side = "CLOSE_SHORT" then
        update_signal_ref st1 sid (find_ref_open_id st1 symbol side)
      else st1
    (TVResult.ok sid users.length, st2, fanout attempt users)

/-- The too-early guard of GET /cron: skip strictly before 23:30 Tehran. -/
def cronTooEarly (hour minute : Nat) : Bool :=
  hour < 23 || (hour == 23 && minute < 30)

/-- Response of GET /cron (always ok; skipped holds the skip reason). -/
structure CronOut where
  ok : Bool
  skipped : Option String
  sentTo : Option Nat
deriving DecidableEq, Repr

/-- cron: before 23:30 Tehran time, skip as too_early; when the stored
last_summary_tehran_date marker already equals today, skip as already_sent;
otherwise fan the summary out (individual failures swallowed) and then set
the marker to today. Returns (response, new marker, delivered recipients).
The summary text itself is built by build_daily_summary and is orthogonal to
the scheduling decision modelled here. -/
def cron (lastSent : Option String) (hour minute : Nat) (dateStr : String)
    (users : List Nat) (attempt : Nat → Bool) :
    CronOut × Option String × List Nat :=
  if cronTooEarly hour minute then
    ({ ok := true, skipped := some "too_early", sentTo := none }, lastSent, [])
  else if lastSent = some dateStr then
    ({ ok := true, skipped := some "already_sent", sentTo := none }, lastSent, [])
  else
    ({ ok := true, skipped := none, sentTo := some users.length },
     some dateStr, fanout attempt users)

/-- One trigger of the external 5-minute scheduler, as the cron endpoint
sees it: the Tehran wall clock and calendar date at that instant. -/
structure CronInput where
  hour : Nat
  minute : Nat
  dateStr : String
deriving DecidableEq, Repr

/-- A sequence of cron triggers against the persistent marker. -/
def cronRun (users : List Nat) (attempt : Nat → Bool) :
    Option String → List CronInput → List CronOut × Option String
  | st, [] => ([], st)
  | st, i :: rest =>
    let r := cron st i.hour i.minute i.dateStr users attempt
    let tail := cronRun users attempt r.2.1 rest
    (r.1 :: tail.1, tail.2)

/-- Number of triggers in a run that actually dispatched a batch. -/
def countSent (outs : List CronOut) : Nat :=
  (outs.filter (fun o => o.skipped.isNone)).length

/-- Well-formedness of the store: every row id was assigned below the
SERIAL counter. Holds for the empty table and is preserved by ingestion. -/
def wfStore (st : Store) : Prop :=
  ∀ s ∈ st.signals, s.id < st.nextId

/-- The referential invariant of claim C8: every stored signal carrying a
ref_open_id points at an existing row with the same symbol whose side is
the complementary open of its own side. -/
def storeInv (sigs : List Signal) : Prop :=
  ∀ s ∈ sigs, ∀ r, s.refOpenId = some r →
    ∃ o ∈ sigs, o.id = r ∧ o.symbol = s.symbol ∧
      ((s.side = "CLOSE_LONG" ∧ o.side = "LONG") ∨
       (s.side = "CLOSE_SHORT" ∧ o.side = "SHORT"))

/-! ## Basic facts about the model -/

lemma pyUpper_CLOSE_LONG : pyUpper "CLOSE_LONG" = "CLOSE_LONG" := rfl

lemma pyUpper_CLOSE_SHORT : pyUpper "CLOSE_SHORT" = "CLOSE_SHORT" := rfl

lemma pyUpper_LONG : pyUpper "LONG" = "LONG" := rfl

lemma pyUpper_SHORT : pyUpper "SHORT" = "SHORT" := rfl

/-- argmaxId returns none exactly on the empty list, and otherwise an
element whose id bounds every id in the list. -/
lemma argmaxId_spec (l : List Signal) :
    (l = [] ∧ argmaxId l = none) ∨
    (∃ g, argmaxId l = some g ∧ g ∈ l ∧ ∀ g2 ∈ l, g2.id ≤ g.id) := by
  induction l with
  | nil => exact Or.inl ⟨rfl, rfl⟩
  | cons a rest ih =>
    right
    rcases ih with ⟨hrest, hnone⟩ | ⟨b, hb, hmem, hbound⟩
    · refine ⟨a, ?_, List.mem_cons_self a rest, ?_⟩
      · simp [argmaxId, hnone]
      · subst hrest
        intro g2 hg2
        rcases List.mem_cons.mp hg2 with h | h
        · exact h ▸ le_refl _
        · exact absurd h (List.not_mem_nil g2)
    · by_cases hlt : b.id < a.id
      · refine ⟨a, ?_, List.mem_cons_self a rest, ?_⟩
        · simp [argmaxId, hb, hlt]
        · intro g2 hg2
          rcases List.mem_cons.mp hg2 with h | h
          · exact h ▸ le_refl _
          · exact le_of_lt (lt_of_le_of_lt (hbound g2 h) hlt)
      · refine ⟨b, ?_, List.mem_cons_of_mem a hmem, ?_⟩
        · simp [argmaxId, hb, hlt]
        · intro g2 hg2
          rcases List.mem_cons.mp hg2 with h | h
          · exact h ▸ Nat.le_of_not_lt hlt
          · exact hbound g2 h

/-- Unfolding find_ref_open_id on a CLOSE_LONG: it searches LONG rows. -/
lemma find_ref_open_id_CLOSE_LONG (st : Store) (symbol : String) :
    find_ref_open_id st symbol "CLOSE_LONG" =
      (argmaxId (st.signals.filter
        (fun g => g.symbol = symbol ∧ g.side = "LONG"))).map (fun g => g.id) := rfl

/-- Unfolding find_ref_open_id on a CLOSE_SHORT: it searches SHORT rows. -/
lemma find_ref_open_id_CLOSE_SHORT (st : Store) (symbol : String) :
    find_ref_open_id st symbol "CLOSE_SHORT" =
      (argmaxId (st.signals.filter
        (fun g => g.symbol = symbol ∧ g.side = "SHORT"))).map (fun g => g.id) := rfl

/-- When the max-id query over symbol/side returns an id, that id belongs
to a matching row and dominates every matching row's id. -/
lemma maxFiltered_spec (sigs : List Signal) (symbol os : String) (i : Nat)
    (h : (argmaxId (sigs.filter (fun g => g.symbol = symbol ∧ g.side = os))).map
      (fun g => g.id) = some i) :
    (∃ g ∈ sigs, g.id = i ∧ g.symbol = symbol ∧ g.side = os) ∧
    ∀ g ∈ sigs, g.symbol = symbol → g.side = os → g.id ≤ i := by
  rcases argmaxId_spec (sigs.filter (fun g => g.symbol = symbol ∧ g.side = os)) with
    ⟨_, hnone⟩ | ⟨g, hg, hmem, hbound⟩
  · rw [hnone] at h; simp at h
  · rw [hg] at h
    have hid : g.id = i := by simpa using h
    have hmem2 := List.mem_filter.mp hmem
    have hprops : g.symbol = symbol ∧ g.side = os := by simpa using hmem2.2
    refine ⟨⟨g, hmem2.1, hid, hprops.1, hprops.2⟩, ?_⟩
    intro g2 hg2 hsym hside
    have hin : g2 ∈ sigs.filter (fun g => g.symbol = symbol ∧ g.side = os) :=
      List.mem_filter.mpr ⟨hg2, by simp [hsym, hside]⟩
    exact hid ▸ hbound g2 hin

/-- An authorized ingestion of a close with no matching open: the close is
persisted with ref_open_id still null and the endpoint succeeds. -/
lemma tv_hook_close_no_open (p : TVPayload) (st : Store) (nowT : Nat)
    (users : List Nat) (attempt : Nat → Bool) (os : String)
    (hcl : pyUpper (p.side.getD "N/A") = "CLOSE_LONG" ∧ os = "LONG" ∨
           pyUpper (p.side.getD "N/A") = "CLOSE_SHORT" ∧ os = "SHORT")
    (hnone : ∀ g ∈ st.signals, ¬(g.symbol = p.symbol.getD "UNKNOWN" ∧ g.side = os)) :
    tv_hook p.secret p st nowT users attempt =
      (TVResult.ok st.nextId users.length,
       { signals := st.signals ++
           [{ id := st.nextId, symbol := p.symbol.getD "UNKNOWN",
              side := pyUpper (p.side.getD "N/A"), price := p.price,
              time := p.time.getD "", createdAt := nowT, refOpenId := none }],
         nextId := st.nextId + 1 },
       fanout attempt users) := by
  have hne : ¬ (p.secret ≠ p.secret) := by simp
  simp only [tv_hook, save_signal]
  rw [if_neg hne]
  rcases hcl with ⟨hc, ho⟩ | ⟨hc, ho⟩
  · subst ho
    rw [hc, if_pos (Or.inl rfl), find_ref_open_id_CLOSE_LONG]
    rw [List.filter_append, List.filter_eq_nil_iff.mpr (fun g hg => by simpa using hnone g hg)]
    simp [argmaxId, update_signal_ref]
  · subst ho
    rw [hc, if_pos (Or.inr rfl), find_ref_open_id_CLOSE_SHORT]
    rw [List.filter_append, List.filter_eq_nil_iff.mpr (fun g hg => by simpa using hnone g hg)]
    simp [argmaxId, update_signal_ref]

/-! ## Fixtures: scenario A of the spec (open LONG BTCUSDT at 100, close
CLOSE_LONG BTCUSDT at 110) and small variants used as concrete inputs. -/

def exOpenA : Signal :=
  { id := 1, symbol := "BTCUSDT", side := "LONG", price := 100, time := "",
    createdAt := 5, refOpenId := none }

def exCloseA : Signal :=
  { id := 2, symbol := "BTCUSDT", side := "CLOSE_LONG", price := 110, time := "",
    createdAt := 6, refOpenId := some 1 }

/-! ## Claim theorems -/

/-- C1: for every resolved close whose open has positive price, the PnL of
a CLOSE_LONG in percent is (close_price - open_price) / open_price * 100
and the PnL of a CLOSE_SHORT in percent is
(open_price - close_price) / open_price * 100; the computation depends
only on the two prices and the matched sides; and scenario A (open LONG at
100, CLOSE_LONG at 110) yields a PnL of 10 percent. -/
theorem c1_pnl_formula (sigs : List Signal) (c o : Signal) (r : Nat)
    (href : c.refOpenId = some r) (hlook : lookupSignal sigs r = some o)
    (hpos : 0 < o.price) :
    (pyUpper c.side = "CLOSE_LONG" → pyUpper o.side = "LONG" →
      resolveClose sigs c = some (o, (c.price - o.price) / o.price) ∧
      pctDisplay ((c.price - o.price) / o.price) = (c.price - o.price) / o.price * 100) ∧
    (pyUpper c.side = "CLOSE_SHORT" → pyUpper o.side = "SHORT" →
      resolveClose sigs c = some (o, (o.price - c.price) / o.price) ∧
      pctDisplay ((o.price - c.price) / o.price) = (o.price - c.price) / o.price * 100) ∧
    (∀ sigs2 c2 o2 r2, c2.refOpenId = some r2 → lookupSignal sigs2 r2 = some o2 →
      pyUpper c2.side = pyUpper c.side → c2.price = c.price →
      pyUpper o2.side = pyUpper o.side → o2.price = o.price →
      (resolveClose sigs2 c2).map (fun p => p.2) =
        (resolveClose sigs c).map (fun p => p.2)) ∧
    (resolveClose [exOpenA, exCloseA] exCloseA = some (exOpenA, (110 - 100) / 100) ∧
      pctDisplay ((110 - 100) / 100) = 10) := by
  have hnle : ¬ o.price ≤ 0 := not_le.mpr hpos
  refine ⟨?_, ?_, ?_, ?_, ?_⟩
  · intro hc ho
    exact ⟨by simp [resolveClose, href, hlook, hnle, hc, ho], rfl⟩
  · intro hc ho
    exact ⟨by simp [resolveClose, href, hlook, hnle, hc, ho], rfl⟩
  · intro sigs2 c2 o2 r2 href2 hlook2 hcs hcp hos hop
    simp only [resolveClose, href, hlook, href2, hlook2, hcs, hcp, hos, hop]
    split_ifs <;> simp
  · rfl
  · norm_num [pctDisplay]

/-- Witness for C1 at scenario A: the hypotheses hold for the concrete
two-row table and the stated PnL comes out. -/
theorem c1_pnl_formula_witness :
    resolveClose [exOpenA, exCloseA] exCloseA =
      some (exOpenA, (exCloseA.price - exOpenA.price) / exOpenA.price) ∧
    pctDisplay ((exCloseA.price - exOpenA.price) / exOpenA.price) =
      (exCloseA.price - exOpenA.price) / exOpenA.price * 100 :=
  (c1_pnl_formula [exOpenA, exCloseA] exCloseA exOpenA 1 rfl rfl
    (by norm_num [exOpenA])).1 rfl rfl

/-- C2: resolution maps CLOSE_LONG to LONG and CLOSE_SHORT to SHORT and
binds the close to the stored signal with the highest id among those with
the same symbol and that open side; if no such open exists, the close is
stored with ref_open_id null, no exception is raised, and ingestion still
succeeds. -/
theorem c2_close_resolution :
    (∀ st symbol i, find_ref_open_id st symbol "CLOSE_LONG" = some i →
      (∃ g ∈ st.signals, g.id = i ∧ g.symbol = symbol ∧ g.side = "LONG") ∧
      ∀ g ∈ st.signals, g.symbol = symbol → g.side = "LONG" → g.id ≤ i) ∧
    (∀ st symbol i, find_ref_open_id st symbol "CLOSE_SHORT" = some i →
      (∃ g ∈ st.signals, g.id = i ∧ g.symbol = symbol ∧ g.side = "SHORT") ∧
      ∀ g ∈ st.signals, g.symbol = symbol → g.side = "SHORT" → g.id ≤ i) ∧
    (∀ p st nowT users attempt os,
      (pyUpper (p.side.getD "N/A") = "CLOSE_LONG" ∧ os = "LONG" ∨
       pyUpper (p.side.getD "N/A") = "CLOSE_SHORT" ∧ os = "SHORT") →
      (∀ g ∈ st.signals, ¬(g.symbol = p.symbol.getD "UNKNOWN" ∧ g.side = os)) →
      (tv_hook p.secret p st nowT users attempt).1 =
        TVResult.ok st.nextId users.length ∧
      (tv_hook p.secret p st nowT users attempt).2.1.signals =
        st.signals ++ [{ id := st.nextId, symbol := p.symbol.getD "UNKNOWN",
                         side := pyUpper (p.side.getD "N/A"), price := p.price,
                         time := p.time.getD "", createdAt := nowT,
                         refOpenId := none }]) := by
  refine ⟨?_, ?_, ?_⟩
  · intro st symbol i h
    rw [find_ref_open_id_CLOSE_LONG] at h
    exact maxFiltered_spec st.signals symbol "LONG" i h
  · intro st symbol i h
    rw [find_ref_open_id_CLOSE_SHORT] at h
    exact maxFiltered_spec st.signals symbol "SHORT" i h
  · intro p st nowT users attempt os hcl hnone
    rw [tv_hook_close_no_open p st nowT users attempt os hcl hnone]
    exact ⟨rfl, rfl⟩

/-- Witness for C2: a CLOSE_SHORT for ETHUSDT arriving on an empty table
is persisted with a null ref_open_id and the hook reports success. -/
theorem c2_close_resolution_witness :
    (tv_hook "sec" { strategy := none, symbol := some "ETHUSDT",
                     side := some "CLOSE_SHORT", price := 45, time := none,
                     secret := "sec" }
      { signals := [], nextId := 1 } 7 [] (fun _ => true)).1 =
      TVResult.ok 1 0 ∧
    (tv_hook "sec" { strategy := none, symbol := some "ETHUSDT",
                     side := some "CLOSE_SHORT", price := 45, time := none,
                     secret := "sec" }
      { signals := [], nextId := 1 } 7 [] (fun _ => true)).2.1.signals =
      [] ++ [{ id := 1, symbol := "ETHUSDT", side := pyUpper "CLOSE_SHORT",
               price := 45, time := "", createdAt := 7, refOpenId := none }] :=
  c2_close_resolution.2.2
    { strategy := none, symbol := some "ETHUSDT", side := some "CLOSE_SHORT",
      price := 45, time := none, secret := "sec" }
    { signals := [], nextId := 1 } 7 [] (fun _ => true) "SHORT"
    (Or.inr ⟨rfl, rfl⟩) (by simp)

/-- After the marker holds today's date, every further same-day trigger in
the window is an already_sent no-op and the marker stays put. -/
lemma cronRun_marker_same (users : List Nat) (attempt : Nat → Bool) (d : String)
    (inputs : List CronInput)
    (h : ∀ i ∈ inputs, i.dateStr = d ∧ cronTooEarly i.hour i.minute = false) :
    countSent (cronRun users attempt (some d) inputs).1 = 0 ∧
    (cronRun users attempt (some d) inputs).2 = some d := by
  induction inputs with
  | nil => simp [cronRun, countSent]
  | cons i rest ih =>
    have hi := h i (List.mem_cons_self i rest)
    have hrest := ih (fun j hj => h j (List.mem_cons_of_mem i hj))
    have hstep : cron (some d) i.hour i.minute i.dateStr users attempt =
        ({ ok := true, skipped := some "already_sent", sentTo := none },
         some d, []) := by
      rw [hi.1]
      simp [cron, hi.2]
    simp only [cronRun, hstep]
    refine ⟨?_, hrest.2⟩
    simpa [countSent] using hrest.1

/-- C3: a trigger before the 23:30 Tehran cutoff is a no-op reporting
too_early; a trigger on a day whose date equals the stored marker is a
no-op reporting already_sent; otherwise exactly one dispatch happens and
the marker becomes today's date; hence a nonempty run of same-day triggers
inside the window dispatches exactly once. -/
theorem c3_once_per_day :
    (∀ st hr mi d users attempt, cronTooEarly hr mi = true →
      cron st hr mi d users attempt =
        ({ ok := true, skipped := some "too_early", sentTo := none }, st, [])) ∧
    (∀ hr mi d users attempt, cronTooEarly hr mi = false →
      cron (some d) hr mi d users attempt =
        ({ ok := true, skipped := some "already_sent", sentTo := none },
         some d, [])) ∧
    (∀ st hr mi d users attempt, cronTooEarly hr mi = false → st ≠ some d →
      cron st hr mi d users attempt =
        ({ ok := true, skipped := none, sentTo := some users.length },
         some d, fanout attempt users)) ∧
    (∀ users attempt d (inputs : List CronInput) init,
      inputs ≠ [] →
      (∀ i ∈ inputs, i.dateStr = d ∧ cronTooEarly i.hour i.minute = false) →
      init ≠ some d →
      countSent (cronRun users attempt init inputs).1 = 1 ∧
      (cronRun users attempt init inputs).2 = some d) := by
  refine ⟨?_, ?_, ?_, ?_⟩
  · intro st hr mi d users attempt hE
    simp [cron, hE]
  · intro hr mi d users attempt hE
    simp [cron, hE]
  · intro st hr mi d users attempt hE hst
    simp [cron, hE, hst]
  · intro users attempt d inputs init hne hall hinit
    cases inputs with
    | nil => exact absurd rfl hne
    | cons i rest =>
      have hi := hall i (List.mem_cons_self i rest)
      have hstep : cron init i.hour i.minute i.dateStr users attempt =
          ({ ok := true, skipped := none, sentTo := some users.length },
           some d, fanout attempt users) := by
        rw [hi.1]
        simp [cron, hi.2, hinit]
      have hrest := cronRun_marker_same users attempt d rest
        (fun j hj => hall j (List.mem_cons_of_mem i hj))
      simp only [cronRun, hstep]
      refine ⟨?_, hrest.2⟩
      simpa [countSent] using hrest.1

/-- Witness for C3: five triggers at 23:30 through 23:34 on the same day
with the marker initially unset yield exactly one dispatch batch. -/
theorem c3_once_per_day_witness :
    countSent (cronRun [11, 22] (fun _ => true) none
      [⟨23, 30, "2024-01-01"⟩, ⟨23, 31, "2024-01-01"⟩, ⟨23, 32, "2024-01-01"⟩,
       ⟨23, 33, "2024-01-01"⟩, ⟨23, 34, "2024-01-01"⟩]).1 = 1 ∧
    (cronRun [11, 22] (fun _ => true) none
      [⟨23, 30, "2024-01-01"⟩, ⟨23, 31, "2024-01-01"⟩, ⟨23, 32, "2024-01-01"⟩,
       ⟨23, 33, "2024-01-01"⟩, ⟨23, 34, "2024-01-01"⟩]).2 = some "2024-01-01" :=
  c3_once_per_day.2.2.2 [11, 22] (fun _ => true) "2024-01-01"
    [⟨23, 30, "2024-01-01"⟩, ⟨23, 31, "2024-01-01"⟩, ⟨23, 32, "2024-01-01"⟩,
     ⟨23, 33, "2024-01-01"⟩, ⟨23, 34, "2024-01-01"⟩] none
    (by simp) (by decide) (by decide)

/-- Folding addition from an arbitrary seed splits off the seed. -/
lemma foldl_add_seed (l : List ℚ) (a : ℚ) :
    l.foldl (fun x y => x + y) a = a + l.foldl (fun x y => x + y) 0 := by
  induction l generalizing a with
  | nil => simp
  | cons b rest ih =>
    rw [List.foldl_cons, List.foldl_cons, ih (a + b), ih (0 + b)]
    ring

lemma sumQ_cons (p : ℚ) (l : List ℚ) : sumQ (p :: l) = p + sumQ l := by
  simp only [sumQ, List.foldl_cons]
  rw [foldl_add_seed l (0 + p)]
  ring

/-- The wins counter of the summary loop counts the strictly positive
counted PnL values. -/
lemma foldl_closeStep_wins (sigs : List Signal) (closes : List Signal)
    (acc : SummaryAcc) :
    (closes.foldl (closeStep sigs) acc).wins =
      acc.wins + ((countedPnls sigs closes).filter (fun p => 0 < p)).length := by
  induction closes generalizing acc with
  | nil => simp [countedPnls]
  | cons c rest ih =>
    rw [List.foldl_cons, ih]
    cases hres : resolveClose sigs c with
    | none => simp [closeStep, hres, countedPnls, List.filterMap_cons]
    | some pr =>
      obtain ⟨o, pnl⟩ := pr
      simp only [closeStep, hres, countedPnls, List.filterMap_cons, Option.map_some]
      rcases lt_or_le 0 pnl with hp | hp
      · have hp2 : 0 < pnl := hp
        simp [hp2, List.filter_cons]
        omega
      · have hp2 : ¬ 0 < pnl := not_lt.mpr hp
        simp [hp2, List.filter_cons]

/-- The losses counter of the summary loop counts the strictly negative
counted PnL values. -/
lemma foldl_closeStep_losses (sigs : List Signal) (closes : List Signal)
    (acc : SummaryAcc) :
    (closes.foldl (closeStep sigs) acc).losses =
      acc.losses + ((countedPnls sigs closes).filter (fun p => p < 0)).length := by
  induction closes generalizing acc with
  | nil => simp [countedPnls]
  | cons c rest ih =>
    rw [List.foldl_cons, ih]
    cases hres : resolveClose sigs c with
    | none => simp [closeStep, hres, countedPnls, List.filterMap_cons]
    | some pr =>
      obtain ⟨o, pnl⟩ := pr
      simp only [closeStep, hres, countedPnls, List.filterMap_cons, Option.map_some]
      rcases lt_trichotomy pnl 0 with hp | hp | hp
      · have hnp : ¬ 0 < pnl := by linarith
        simp [hp, hnp, List.filter_cons]
        omega
      · have hnp : ¬ 0 < pnl := by simp [hp]
        have hnl : ¬ pnl < 0 := by simp [hp]
        simp [hp, hnp, hnl, List.filter_cons]
      · have hnl : ¬ pnl < 0 := by linarith
        simp [hp, hnl, List.filter_cons]

/-- The running total_pnl of the summary loop sums all counted PnL values,
positive and negative alike. -/
lemma foldl_closeStep_totalPnl (sigs : List Signal) (closes : List Signal)
    (acc : SummaryAcc) :
    (closes.foldl (closeStep sigs) acc).totalPnl =
      acc.totalPnl + sumQ (countedPnls sigs closes) := by
  induction closes generalizing acc with
  | nil => simp [countedPnls, sumQ]
  | cons c rest ih =>
    rw [List.foldl_cons, ih]
    cases hres : resolveClose sigs c with
    | none => simp [closeStep, hres, countedPnls, List.filterMap_cons]
    | some pr =>
      obtain ⟨o, pnl⟩ := pr
      simp only [closeStep, hres, countedPnls, List.filterMap_cons, Option.map_some']
      rw [sumQ_cons]
      ring

/-- Every rational is counted exactly once among positives, negatives and
zeros. -/
lemma sign_partition (l : List ℚ) :
    (l.filter (fun p => 0 < p)).length + (l.filter (fun p => p < 0)).length +
      (l.filter (fun p => p = 0)).length = l.length := by
  induction l with
  | nil => simp
  | cons a rest ih =>
    rcases lt_trichotomy 0 a with h | h | h
    · have h1 : ¬ a < 0 := by linarith
      have h2 : ¬ a = 0 := by intro h0; rw [h0] at h; exact lt_irrefl 0 h
      simp only [List.filter_cons]
      simp [h, h1, h2]
      omega
    · have h1 : ¬ 0 < a := by rw [← h]; exact lt_irrefl 0
      have h2 : ¬ a < 0 := by rw [← h]; exact lt_irrefl 0
      simp only [List.filter_cons]
      simp [h1, h2, h.symm]
      omega
    · have h1 : ¬ 0 < a := by linarith
      have h2 : ¬ a = 0 := by intro h0; rw [h0] at h; exact lt_irrefl 0 h
      simp only [List.filter_cons]
      simp [h, h1, h2]
      omega

/-- C4 (amended): in the daily summary a counted close with pnl > 0 is a
win, one with pnl < 0 is a loss, one with pnl exactly 0 is counted as
neither (it is excluded from the trade total), and total equals wins plus
losses. -/
theorem c4_win_loss_amended :
    (∀ sigs closes, (summaryAccOf sigs closes).wins =
      ((countedPnls sigs closes).filter (fun p => 0 < p)).length) ∧
    (∀ sigs closes, (summaryAccOf sigs closes).losses =
      ((countedPnls sigs closes).filter (fun p => p < 0)).length) ∧
    (∀ st startT endT, (build_daily_summary st startT endT).totalTrades =
      (build_daily_summary st startT endT).wins +
        (build_daily_summary st startT endT).losses) ∧
    (∀ sigs closes,
      (summaryAccOf sigs closes).wins + (summaryAccOf sigs closes).losses +
        ((countedPnls sigs closes).filter (fun p => p = 0)).length =
      (countedPnls sigs closes).length) := by
  refine ⟨?_, ?_, ?_, ?_⟩
  · intro sigs closes
    simpa [initAcc] using foldl_closeStep_wins sigs closes initAcc
  · intro sigs closes
    simpa [initAcc] using foldl_closeStep_losses sigs closes initAcc
  · intro st startT endT
    simp [build_daily_summary]
  · intro sigs closes
    have hw := foldl_closeStep_wins sigs closes initAcc
    have hl := foldl_closeStep_losses sigs closes initAcc
    have hp := sign_partition (countedPnls sigs closes)
    simp only [summaryAccOf]
    rw [hw, hl]
    simp only [initAcc]
    omega

/-- A zero-PnL close: same open and close price as scenario A. -/
def exCloseZ : Signal :=
  { id := 2, symbol := "BTCUSDT", side := "CLOSE_LONG", price := 100, time := "",
    createdAt := 6, refOpenId := some 1 }

/-- Store holding scenario A's open and a zero-PnL close of it. -/
def stZ : Store := { signals := [exOpenA, exCloseZ], nextId := 3 }

/-- C4 (counterexample to the claim as stated): a close that resolves with
PnL exactly 0 is NOT counted as a loss — it is dropped from wins, losses
and the trade total altogether. -/
theorem c4_zero_loss_counterexample :
    resolveClose stZ.signals exCloseZ = some (exOpenA, 0) ∧
    (build_daily_summary stZ 0 10).losses = 0 ∧
    (build_daily_summary stZ 0 10).wins = 0 ∧
    (build_daily_summary stZ 0 10).totalTrades = 0 := by
  have hres : resolveClose stZ.signals exCloseZ = some (exOpenA, 0) := by
    have h0 : ((100 : ℚ) - 100) / 100 = 0 := by norm_num
    simp [resolveClose, stZ, exOpenA, exCloseZ, lookupSignal, pyUpper_CLOSE_LONG,
      pyUpper_LONG, h0]
  have hwc : windowCloses stZ 0 10 = [exCloseZ] := by decide
  refine ⟨hres, ?_, ?_, ?_⟩ <;>
    simp [build_daily_summary, hwc, summaryAccOf, List.foldl_cons, List.foldl_nil,
      closeStep, hres, initAcc]

/-- C5 (amended): the cumulative-PnL figure of the daily summary is the
sum of ALL counted PnL values, negative entries included — not the sum of
only the positive ones. -/
theorem c5_total_pnl_amended :
    (∀ sigs closes, (summaryAccOf sigs closes).totalPnl =
      sumQ (countedPnls sigs closes)) ∧
    (∀ st startT endT, (build_daily_summary st startT endT).totalPnl =
      sumQ (countedPnls st.signals (windowCloses st startT endT))) := by
  constructor
  · intro sigs closes
    simpa [initAcc] using foldl_closeStep_totalPnl sigs closes initAcc
  · intro st startT endT
    have h := foldl_closeStep_totalPnl st.signals (windowCloses st startT endT) initAcc
    simpa [build_daily_summary, summaryAccOf, initAcc] using h

/-- A losing close of scenario A's open: close price 50 against open 100,
fractional PnL -1/2. -/
def exCloseL : Signal :=
  { id := 2, symbol := "BTCUSDT", side := "CLOSE_LONG", price := 50, time := "",
    createdAt := 6, refOpenId := some 1 }

/-- Store holding scenario A's open and a losing close of it. -/
def stL : Store := { signals := [exOpenA, exCloseL], nextId := 3 }

/-- C5 (counterexample to the claim as stated): with a single counted
losing close the reported cumulative PnL is -1/2, while the sum of only
the positive PnL values would be 0 — the code does not exclude
non-positive entries from the sum. -/
theorem c5_sum_positive_counterexample :
    (build_daily_summary stL 0 10).totalPnl = -(1/2) ∧
    sumPositiveSpec stL.signals (windowCloses stL 0 10) = 0 ∧
    (build_daily_summary stL 0 10).totalPnl ≠
      sumPositiveSpec stL.signals (windowCloses stL 0 10) := by
  have hres : resolveClose stL.signals exCloseL = some (exOpenA, -(1/2)) := by
    have h0 : ((50 : ℚ) - 100) / 100 = -(1/2) := by norm_num
    simp [resolveClose, stL, exOpenA, exCloseL, lookupSignal, pyUpper_CLOSE_LONG,
      pyUpper_LONG, h0]
  have hwc : windowCloses stL 0 10 = [exCloseL] := by decide
  have h1 : (build_daily_summary stL 0 10).totalPnl = -(1/2) := by
    simp [build_daily_summary, hwc, summaryAccOf, List.foldl_cons, List.foldl_nil,
      closeStep, hres, initAcc]
  have h2 : sumPositiveSpec stL.signals (windowCloses stL 0 10) = 0 := by
    rw [hwc]
    simp [sumPositiveSpec, countedPnls, List.filterMap_cons, hres, sumQ]
  refine ⟨h1, h2, ?_⟩
  rw [h1, h2]
  norm_num

/-- C6 (amended): the win-rate is wins / total * 100 whenever the counted
trade total is positive, and is None (rendered N/A) — not 0 — when the
total is 0. -/
theorem c6_winrate_amended (st : Store) (startT endT : Nat) :
    (0 < (build_daily_summary st startT endT).totalTrades →
      (build_daily_summary st startT endT).winrate =
        some (((build_daily_summary st startT endT).wins : ℚ) /
          ((build_daily_summary st startT endT).totalTrades : ℚ) * 100)) ∧
    ((build_daily_summary st startT endT).totalTrades = 0 →
      (build_daily_summary st startT endT).winrate = none) := by
  constructor
  · intro h
    simp only [build_daily_summary] at h ⊢
    rw [if_pos h]
  · intro h
    simp only [build_daily_summary] at h ⊢
    rw [if_neg (by omega)]

/-- Witness for C6: scenario A's store has one counted winning trade, so
the win-rate is 1/1*100. -/
theorem c6_winrate_amended_witness :
    (build_daily_summary { signals := [exOpenA, exCloseA], nextId := 3 } 0 10).winrate =
      some (((build_daily_summary { signals := [exOpenA, exCloseA], nextId := 3 } 0 10).wins : ℚ) /
        ((build_daily_summary { signals := [exOpenA, exCloseA], nextId := 3 } 0 10).totalTrades : ℚ) * 100) := by
  have hres : resolveClose [exOpenA, exCloseA] exCloseA =
      some (exOpenA, (110 - 100) / 100) := rfl
  have hwc : windowCloses { signals := [exOpenA, exCloseA], nextId := 3 } 0 10 =
      [exCloseA] := by decide
  have htot : 0 < (build_daily_summary { signals := [exOpenA, exCloseA], nextId := 3 } 0 10).totalTrades := by
    simp [build_daily_summary, hwc, summaryAccOf, List.foldl_cons, List.foldl_nil,
      closeStep, hres, initAcc]
    norm_num
  exact (c6_winrate_amended { signals := [exOpenA, exCloseA], nextId := 3 } 0 10).1 htot

/-- C6 (counterexample to the claim as stated): on an empty table the
trade total is 0 and the win-rate is None (displayed N/A), not 0. -/
theorem c6_winrate_counterexample :
    (build_daily_summary { signals := [], nextId := 1 } 0 10).totalTrades = 0 ∧
    (build_daily_summary { signals := [], nextId := 1 } 0 10).winrate = none ∧
    (build_daily_summary { signals := [], nextId := 1 } 0 10).winrate ≠ some 0 := by
  refine ⟨rfl, rfl, ?_⟩
  intro h
  simp [build_daily_summary, windowCloses, summaryAccOf, initAcc] at h

/-- Setting a reference on the freshly inserted row leaves all older rows
untouched, because their ids differ from the new row's id. -/
lemma update_fresh_row (sigs : List Signal) (row : Signal) (n r : Nat)
    (hrow : row.id = n) (hfresh : ∀ s ∈ sigs, s.id ≠ n) :
    (sigs ++ [row]).map
      (fun s => if s.id = n then { s with refOpenId := some r } else s) =
      sigs ++ [{ row with refOpenId := some r }] := by
  induction sigs with
  | nil => simp [hrow]
  | cons a rest ih =>
    have ha := hfresh a (List.mem_cons_self a rest)
    simp only [List.cons_append, List.map_cons]
    rw [if_neg ha, ih (fun s hs => hfresh s (List.mem_cons_of_mem a hs))]

/-- update_signal_ref aimed at the freshly appended row only rewrites that
row's ref_open_id (to some value depending on the reference passed). -/
lemma update_signal_ref_fresh (sigs : List Signal) (row : Signal) (n : Nat)
    (ref : Option Nat) (hfresh : ∀ s ∈ sigs, s.id ≠ row.id) :
    ∃ refv : Option Nat,
      (update_signal_ref { signals := sigs ++ [row], nextId := n } row.id ref).signals =
        sigs ++ [{ row with refOpenId := refv }] := by
  cases ref with
  | none => exact ⟨row.refOpenId, by simp [update_signal_ref]⟩
  | some r =>
    by_cases hr : r = 0
    · exact ⟨row.refOpenId, by simp [update_signal_ref, hr]⟩
    · refine ⟨some r, ?_⟩
      simp only [update_signal_ref]
      rw [if_neg hr]
      exact update_fresh_row sigs row row.id r rfl hfresh

/-- C7 (amended): ingestion validates nothing except the shared secret —
there is no symbol allow-list, side check or price check in the code. A
wrong secret is rejected with 401 and nothing is persisted; with the
correct secret any symbol, side and price (including non-positive prices)
are appended as a new row whose id is returned. -/
theorem c7_no_validation_amended :
    (∀ secret p st nowT users attempt, p.secret ≠ secret →
      tv_hook secret p st nowT users attempt = (TVResult.unauthorized, st, [])) ∧
    (∀ secret p st nowT users attempt, p.secret = secret → wfStore st →
      (tv_hook secret p st nowT users attempt).1 =
        TVResult.ok st.nextId users.length ∧
      ∃ refv, (tv_hook secret p st nowT users attempt).2.1.signals =
        st.signals ++ [{ id := st.nextId, symbol := p.symbol.getD "UNKNOWN",
                         side := pyUpper (p.side.getD "N/A"), price := p.price,
                         time := p.time.getD "", createdAt := nowT,
                         refOpenId := refv }]) := by
  constructor
  · intro secret p st nowT users attempt hne
    simp [tv_hook, hne]
  · intro secret p st nowT users attempt hsec hwf
    subst hsec
    have hne : ¬ (p.secret ≠ p.secret) := by simp
    have hfresh : ∀ s ∈ st.signals, s.id ≠ st.nextId :=
      fun s hs => Nat.ne_of_lt (hwf s hs)
    simp only [tv_hook, save_signal]
    rw [if_neg hne]
    refine ⟨rfl, ?_⟩
    by_cases hcl : pyUpper (p.side.getD "N/A") = "CLOSE_LONG" ∨
        pyUpper (p.side.getD "N/A") = "CLOSE_SHORT"
    · rw [if_pos hcl]
      dsimp only
      exact update_signal_ref_fresh st.signals _ _ _ hfresh
    · rw [if_neg hcl]
      exact ⟨none, rfl⟩

/-- Witness for C7 at a concrete invalid-by-the-spec input: symbol not in
any allow-list, unrecognized side, negative price — still persisted. -/
theorem c7_no_validation_witness :
    (tv_hook "sec" { strategy := none, symbol := some "NOTALLOWED",
                     side := some "SIDEWAYS", price := -5, time := none,
                     secret := "sec" }
      { signals := [], nextId := 1 } 0 [] (fun _ => true)).1 =
      TVResult.ok 1 0 ∧
    ∃ refv, (tv_hook "sec" { strategy := none, symbol := some "NOTALLOWED",
                             side := some "SIDEWAYS", price := -5, time := none,
                             secret := "sec" }
      { signals := [], nextId := 1 } 0 [] (fun _ => true)).2.1.signals =
      [] ++ [{ id := 1, symbol := (some "NOTALLOWED").getD "UNKNOWN",
               side := pyUpper ((some "SIDEWAYS").getD "N/A"), price := -5,
               time := "", createdAt := 0, refOpenId := refv }] :=
  c7_no_validation_amended.2 "sec"
    { strategy := none, symbol := some "NOTALLOWED", side := some "SIDEWAYS",
      price := -5, time := none, secret := "sec" }
    { signals := [], nextId := 1 } 0 [] (fun _ => true) rfl
    (fun s hs => absurd hs (List.not_mem_nil s))

/-- C7 (counterexample to the claim as stated): the request with a
disallowed symbol, an unrecognized side and a negative price is accepted,
a row is persisted, and its id is returned — no validation error occurs. -/
theorem c7_validation_counterexample :
    (tv_hook "sec" { strategy := none, symbol := some "NOTALLOWED",
                     side := some "SIDEWAYS", price := -5, time := none,
                     secret := "sec" }
      { signals := [], nextId := 1 } 0 [] (fun _ => true)).1 =
      TVResult.ok 1 0 ∧
    (tv_hook "sec" { strategy := none, symbol := some "NOTALLOWED",
                     side := some "SIDEWAYS", price := -5, time := none,
                     secret := "sec" }
      { signals := [], nextId := 1 } 0 [] (fun _ => true)).2.1.signals =
      [{ id := 1, symbol := "NOTALLOWED", side := "SIDEWAYS", price := -5,
         time := "", createdAt := 0, refOpenId := none }] :=
  ⟨rfl, rfl⟩

/-- The row an authorized tv_hook call appends, with its final
ref_open_id value. -/
def ingestedRow (p : TVPayload) (st : Store) (nowT : Nat) (refv : Option Nat) : Signal :=
  { id := st.nextId, symbol := p.symbol.getD "UNKNOWN",
    side := pyUpper (p.side.getD "N/A"), price := p.price,
    time := p.time.getD "", createdAt := nowT, refOpenId := refv }

/-- The close branch of tv_hook: looking up and persisting the reference
for a freshly appended close row only touches that row, and any reference
it persists is the id of an older row with the same symbol and the
matching open side. -/
lemma close_branch_shape (sigs : List Signal) (n : Nat) (sym cs os : String)
    (row : Signal)
    (hrow_id : row.id = n) (hrow_side : row.side = cs)
    (hrow_ref : row.refOpenId = none)
    (hfresh : ∀ s ∈ sigs, s.id ≠ n)
    (hco : cs = "CLOSE_LONG" ∧ os = "LONG" ∨ cs = "CLOSE_SHORT" ∧ os = "SHORT") :
    ∃ refv : Option Nat,
      update_signal_ref { signals := sigs ++ [row], nextId := n + 1 } n
          (find_ref_open_id { signals := sigs ++ [row], nextId := n + 1 } sym cs) =
        { signals := sigs ++ [{ row with refOpenId := refv }], nextId := n + 1 } ∧
      (refv = none ∨
        ∃ r, refv = some r ∧ ∃ g ∈ sigs, g.id = r ∧ g.symbol = sym ∧ g.side = os) := by
  cases hfind : find_ref_open_id { signals := sigs ++ [row], nextId := n + 1 } sym cs with
  | none =>
    refine ⟨row.refOpenId, ?_, Or.inl hrow_ref⟩
    simp [update_signal_ref]
  | some r =>
    by_cases hr : r = 0
    · subst hr
      refine ⟨row.refOpenId, ?_, Or.inl hrow_ref⟩
      simp [update_signal_ref]
    · refine ⟨some r, ?_, Or.inr ⟨r, rfl, ?_⟩⟩
      · simp only [update_signal_ref]
        rw [if_neg hr]
        rw [show (sigs ++ [row]).map
            (fun s => if s.id = n then { s with refOpenId := some r } else s) =
            sigs ++ [{ row with refOpenId := some r }] from
          update_fresh_row sigs row n r hrow_id hfresh]
      · rcases hco with ⟨hcs, hos⟩ | ⟨hcs, hos⟩ <;> subst hos <;> rw [hcs] at hfind
        · rw [find_ref_open_id_CLOSE_LONG] at hfind
          obtain ⟨⟨g, hgmem, hgid, hgsym, hgside⟩, _⟩ :=
            maxFiltered_spec _ sym "LONG" r hfind
          refine ⟨g, ?_, hgid, hgsym, hgside⟩
          rcases List.mem_append.mp hgmem with h | h
          · exact h
          · exfalso
            have hgr : g = row := List.mem_singleton.mp h
            rw [hgr, hrow_side, hcs] at hgside
            exact absurd hgside (by decide)
        · rw [find_ref_open_id_CLOSE_SHORT] at hfind
          obtain ⟨⟨g, hgmem, hgid, hgsym, hgside⟩, _⟩ :=
            maxFiltered_spec _ sym "SHORT" r hfind
          refine ⟨g, ?_, hgid, hgsym, hgside⟩
          rcases List.mem_append.mp hgmem with h | h
          · exact h
          · exfalso
            have hgr : g = row := List.mem_singleton.mp h
            rw [hgr, hrow_side, hcs] at hgside
            exact absurd hgside (by decide)

/-- Shape of an authorized ingestion: the store gains exactly the new row;
when that row got a reference, the reference is the id of an OLD row with
the same symbol and the matching open side. -/
lemma tv_hook_shape (secret : String) (p : TVPayload) (st : Store) (nowT : Nat)
    (users : List Nat) (attempt : Nat → Bool)
    (hsec : p.secret = secret) (hwf : wfStore st) :
    ∃ refv,
      (tv_hook secret p st nowT users attempt).2.1 =
        { signals := st.signals ++ [ingestedRow p st nowT refv],
          nextId := st.nextId + 1 } ∧
      (refv = none ∨
        ∃ r, refv = some r ∧
          (pyUpper (p.side.getD "N/A") = "CLOSE_LONG" ∧
            (∃ g ∈ st.signals, g.id = r ∧ g.symbol = p.symbol.getD "UNKNOWN" ∧
              g.side = "LONG") ∨
           pyUpper (p.side.getD "N/A") = "CLOSE_SHORT" ∧
            (∃ g ∈ st.signals, g.id = r ∧ g.symbol = p.symbol.getD "UNKNOWN" ∧
              g.side = "SHORT"))) := by
  subst hsec
  have hne : ¬ (p.secret ≠ p.secret) := by simp
  have hfresh : ∀ s ∈ st.signals, s.id ≠ st.nextId :=
    fun s hs => Nat.ne_of_lt (hwf s hs)
  simp only [tv_hook, save_signal]
  rw [if_neg hne]
  by_cases hcl : pyUpper (p.side.getD "N/A") = "CLOSE_LONG" ∨
      pyUpper (p.side.getD "N/A") = "CLOSE_SHORT"
  · rw [if_pos hcl]
    dsimp only
    have hco : pyUpper (p.side.getD "N/A") = "CLOSE_LONG" ∧ "LONG" = "LONG" ∨
        pyUpper (p.side.getD "N/A") = "CLOSE_SHORT" ∧ "LONG" = "SHORT" →
        True := fun _ => trivial
    rcases hcl with hc | hc
    · obtain ⟨refv, heq, hinfo⟩ := close_branch_shape st.signals st.nextId
        (p.symbol.getD "UNKNOWN") (pyUpper (p.side.getD "N/A")) "LONG"
        (ingestedRow p st nowT none) rfl rfl rfl hfresh (Or.inl ⟨hc, rfl⟩)
      refine ⟨refv, ?_, ?_⟩
      · rw [show (ingestedRow p st nowT none : Signal) =
            { id := st.nextId, symbol := p.symbol.getD "UNKNOWN",
              side := pyUpper (p.side.getD "N/A"), price := p.price,
              time := p.time.getD "", createdAt := nowT,
              refOpenId := none } from rfl] at heq
        rw [heq]
        rfl
      · rcases hinfo with hnone | ⟨r, hrv, hg⟩
        · exact Or.inl hnone
        · exact Or.inr ⟨r, hrv, Or.inl ⟨hc, hg⟩⟩
    · obtain ⟨refv, heq, hinfo⟩ := close_branch_shape st.signals st.nextId
        (p.symbol.getD "UNKNOWN") (pyUpper (p.side.getD "N/A")) "SHORT"
        (ingestedRow p st nowT none) rfl rfl rfl hfresh (Or.inr ⟨hc, rfl⟩)
      refine ⟨refv, ?_, ?_⟩
      · rw [show (ingestedRow p st nowT none : Signal) =
            { id := st.nextId, symbol := p.symbol.getD "UNKNOWN",
              side := pyUpper (p.side.getD "N/A"), price := p.price,
              time := p.time.getD "", createdAt := nowT,
              refOpenId := none } from rfl] at heq
        rw [heq]
        rfl
      · rcases hinfo with hnone | ⟨r, hrv, hg⟩
        · exact Or.inl hnone
        · exact Or.inr ⟨r, hrv, Or.inr ⟨hc, hg⟩⟩
  · rw [if_neg hcl]
    exact ⟨none, rfl, Or.inl rfl⟩

/-- C8: every ingestion step preserves the invariant that a stored close
carrying a non-null ref_open_id points at an existing row with the same
symbol whose side is the complementary open (CLOSE_LONG references a LONG,
CLOSE_SHORT references a SHORT); well-formedness of the id counter is
preserved alongside. -/
theorem c8_ref_invariant (secret : String) (p : TVPayload) (st : Store)
    (nowT : Nat) (users : List Nat) (attempt : Nat → Bool)
    (hwf : wfStore st) (hinv : storeInv st.signals) :
    wfStore (tv_hook secret p st nowT users attempt).2.1 ∧
    storeInv (tv_hook secret p st nowT users attempt).2.1.signals := by
  by_cases hsec : p.secret = secret
  · obtain ⟨refv, hshape, hre⟩ := tv_hook_shape secret p st nowT users attempt hsec hwf
    rw [hshape]
    constructor
    · intro s hs
      rcases List.mem_append.mp hs with h | h
      · exact Nat.lt_succ_of_lt (hwf s h)
      · have hrow : s = ingestedRow p st nowT refv := List.mem_singleton.mp h
        rw [hrow]
        exact Nat.lt_succ_self st.nextId
    · intro s hs r hr
      rcases List.mem_append.mp hs with h | h
      · obtain ⟨o, ho, hrest⟩ := hinv s h r hr
        exact ⟨o, List.mem_append.mpr (Or.inl ho), hrest⟩
      · have hrow : s = ingestedRow p st nowT refv := List.mem_singleton.mp h
        rcases hre with hnone | ⟨r2, hr2, hcase⟩
        · rw [hrow] at hr
          rw [hnone] at hr
          cases hr
        · rw [hrow] at hr
          rw [hr2] at hr
          have hrr : r2 = r := by simpa [ingestedRow] using hr
          subst hrr
          rcases hcase with ⟨hside, g, hg, hgid, hgsym, hgside⟩ |
              ⟨hside, g, hg, hgid, hgsym, hgside⟩
          · refine ⟨g, List.mem_append.mpr (Or.inl hg), hgid, ?_, Or.inl ⟨?_, hgside⟩⟩
            · rw [hrow]
              simpa [ingestedRow] using hgsym
            · rw [hrow]
              simpa [ingestedRow] using hside
          · refine ⟨g, List.mem_append.mpr (Or.inl hg), hgid, ?_, Or.inr ⟨?_, hgside⟩⟩
            · rw [hrow]
              simpa [ingestedRow] using hgsym
            · rw [hrow]
              simpa [ingestedRow] using hside
  · have hne : p.secret ≠ secret := hsec
    simp only [tv_hook]
    rw [if_pos hne]
    exact ⟨hwf, hinv⟩

/-- Witness for C8: ingesting a CLOSE_LONG for BTCUSDT into the store that
already holds scenario A's open preserves the invariant. -/
theorem c8_ref_invariant_witness :
    wfStore (tv_hook "sec" { strategy := none, symbol := some "BTCUSDT",
                             side := some "CLOSE_LONG", price := 110,
                             time := none, secret := "sec" }
      { signals := [exOpenA], nextId := 2 } 6 [] (fun _ => true)).2.1 ∧
    storeInv (tv_hook "sec" { strategy := none, symbol := some "BTCUSDT",
                              side := some "CLOSE_LONG", price := 110,
                              time := none, secret := "sec" }
      { signals := [exOpenA], nextId := 2 } 6 [] (fun _ => true)).2.1.signals :=
  c8_ref_invariant "sec"
    { strategy := none, symbol := some "BTCUSDT", side := some "CLOSE_LONG",
      price := 110, time := none, secret := "sec" }
    { signals := [exOpenA], nextId := 2 } 6 [] (fun _ => true)
    (by intro s hs; simp [exOpenA] at hs; rw [hs]; decide)
    (by intro s hs r hr; simp [exOpenA] at hs; rw [hs] at hr; cases hr)

/-- The send loop delivers exactly to the recipients whose send succeeds. -/
lemma fanout_eq_filter (attempt : Nat → Bool) (users : List Nat) :
    fanout attempt users = users.filter attempt := by
  induction users with
  | nil => rfl
  | cons u rest ih => by_cases h : attempt u <;> simp [fanout, h, ih]

/-- C9: in both fan-out loops (signal broadcast and daily summary) a
failed delivery to one recipient is swallowed: it does not remove any
other recipient from the batch, the endpoint result and the stored state
do not depend on delivery outcomes, and the daily-summary marker is still
set after the batch. -/
theorem c9_dispatch_isolation :
    (∀ (attempt : Nat → Bool) pre u post, attempt u = false →
      fanout attempt (pre ++ u :: post) = fanout attempt (pre ++ post)) ∧
    (∀ (attempt : Nat → Bool) users u, u ∈ users → attempt u = true →
      u ∈ fanout attempt users) ∧
    (∀ secret p st nowT users attempt attempt2,
      (tv_hook secret p st nowT users attempt).1 =
        (tv_hook secret p st nowT users attempt2).1 ∧
      (tv_hook secret p st nowT users attempt).2.1 =
        (tv_hook secret p st nowT users attempt2).2.1) ∧
    (∀ lastSent hr mi d users attempt,
      cronTooEarly hr mi = false → lastSent ≠ some d →
      (cron lastSent hr mi d users attempt).1 =
        { ok := true, skipped := none, sentTo := some users.length } ∧
      (cron lastSent hr mi d users attempt).2.1 = some d) := by
  refine ⟨?_, ?_, ?_, ?_⟩
  · intro attempt pre u post h
    simp [fanout_eq_filter, List.filter_append, List.filter_cons, h]
  · intro attempt users u hu ha
    rw [fanout_eq_filter]
    exact List.mem_filter.mpr ⟨hu, ha⟩
  · intro secret p st nowT users attempt attempt2
    by_cases hsec : p.secret ≠ secret <;> simp [tv_hook, hsec]
  · intro lastSent hr mi d users attempt hE hst
    simp [cron, hE, hst]

/-- Witness for C9: recipient 2 failing does not stop delivery to 1 and 3,
and a cron dispatch with a failing recipient still sets the marker. -/
theorem c9_dispatch_isolation_witness :
    fanout (fun u => u != 2) ([1] ++ 2 :: [3]) = fanout (fun u => u != 2) ([1] ++ [3]) ∧
    (cron none 23 30 "2024-01-01" [1, 2, 3] (fun u => u != 2)).1 =
      { ok := true, skipped := none, sentTo := some [1, 2, 3].length } ∧
    (cron none 23 30 "2024-01-01" [1, 2, 3] (fun u => u != 2)).2.1 =
      some "2024-01-01" :=
  ⟨c9_dispatch_isolation.1 (fun u => u != 2) [1] 2 [3] rfl,
   c9_dispatch_isolation.2.2.2 none 23 30 "2024-01-01" [1, 2, 3]
     (fun u => u != 2) rfl (by decide)⟩

/-- A close whose ref_open_id points at a row that does not exist. -/
def exCloseDangling : Signal :=
  { id := 2, symbol := "BTCUSDT", side := "CLOSE_LONG", price := 110, time := "",
    createdAt := 6, refOpenId := some 99 }

/-- C10: the daily-summary loop silently skips a close whose ref_open_id
has no row, or whose referenced signal's side is not the complementary
open of the close's side, or whose referenced open price is not positive:
such a close leaves the whole accumulator (wins, losses, trade total,
best trade, cumulative PnL) unchanged, so it contributes nothing to the
summary, and no error is raised. -/
theorem c10_skipped_close_contributes_nothing :
    (∀ sigs acc c r, c.refOpenId = some r → lookupSignal sigs r = none →
      resolveClose sigs c = none ∧ closeStep sigs acc c = acc) ∧
    (∀ sigs acc c r o, c.refOpenId = some r → lookupSignal sigs r = some o →
      o.price ≤ 0 →
      resolveClose sigs c = none ∧ closeStep sigs acc c = acc) ∧
    (∀ sigs acc c r o, c.refOpenId = some r → lookupSignal sigs r = some o →
      ¬(pyUpper c.side = "CLOSE_LONG" ∧ pyUpper o.side = "LONG") →
      ¬(pyUpper c.side = "CLOSE_SHORT" ∧ pyUpper o.side = "SHORT") →
      resolveClose sigs c = none ∧ closeStep sigs acc c = acc) ∧
    (∀ sigs closes1 closes2 c, resolveClose sigs c = none →
      summaryAccOf sigs (closes1 ++ c :: closes2) =
        summaryAccOf sigs (closes1 ++ closes2)) := by
  refine ⟨?_, ?_, ?_, ?_⟩
  · intro sigs acc c r hr hlook
    have hres : resolveClose sigs c = none := by simp [resolveClose, hr, hlook]
    exact ⟨hres, by simp [closeStep, hres]⟩
  · intro sigs acc c r o hr hlook hp
    have hres : resolveClose sigs c = none := by simp [resolveClose, hr, hlook, hp]
    exact ⟨hres, by simp [closeStep, hres]⟩
  · intro sigs acc c r o hr hlook hA hB
    have hres : resolveClose sigs c = none := by
      by_cases hp : o.price ≤ 0 <;> simp [resolveClose, hr, hlook, hp, hA, hB]
    exact ⟨hres, by simp [closeStep, hres]⟩
  · intro sigs closes1 closes2 c hres
    simp only [summaryAccOf, List.foldl_append, List.foldl_cons]
    rw [show closeStep sigs (List.foldl (closeStep sigs) initAcc closes1) c =
      List.foldl (closeStep sigs) initAcc closes1 from by simp [closeStep, hres]]

/-- Witness for C10: a close referencing the nonexistent row 99 is skipped
and leaves the accumulator untouched. -/
theorem c10_skipped_close_witness :
    resolveClose [] exCloseDangling = none ∧
    closeStep [] initAcc exCloseDangling = initAcc :=
  c10_skipped_close_contributes_nothing.1 [] initAcc exCloseDangling 99 rfl rfl

end SourceTrader
